import Mathlib

/-!
Shallow embedding of the config-store implementation in `src/config_store.c`
(with struct layouts from the public header).  Buffers are modelled as lists of
bytes (`List ℕ`, each element < 256 in well-formed inputs); pointers into a
buffer are modelled as natural-number byte offsets; `size_t` arithmetic that
cannot wrap in the modelled uses is ordinary `ℕ` arithmetic.  Fallible C
functions return `Option`/`Except`.  Loops are embedded as structural
recursions on an explicit fuel argument; every wrapper passes fuel that is
provably sufficient for the loop bounds realised by the C code.
-/

/-- Read one byte of a buffer; out-of-range reads yield 0 (the C code never
performs such reads in the situations the claims quantify over). -/
def byteAt (buf : List ℕ) (i : ℕ) : ℕ := buf.getD i 0

/-- Little-endian decoding of two bytes, as done by reading a packed
`uint16_t` field on a little-endian target. -/
def le16 (lo hi : ℕ) : ℕ := lo + 256 * hi

/-- Little-endian decoding of a packed `uint32_t` field at offset `i`. -/
def le32at (buf : List ℕ) (i : ℕ) : ℕ :=
  byteAt buf i + 256 * byteAt buf (i + 1) + 65536 * byteAt buf (i + 2) +
    16777216 * byteAt buf (i + 3)

/-- Little-endian encoding of a `uint32_t` value as four bytes. -/
def le32bytes (n : ℕ) : List ℕ :=
  [n % 256, n / 256 % 256, n / 65536 % 256, n / 16777216 % 256]

/-- The `key` field of the packed `ConfigStoreKvpHeader` at offset `p`
(bytes `p`, `p+1`, little-endian). -/
def kvpKey (buf : List ℕ) (p : ℕ) : ℕ := le16 (byteAt buf p) (byteAt buf (p + 1))

/-- The `size` field of the packed `ConfigStoreKvpHeader` at offset `p`
(bytes `p+2`, `p+3`, little-endian). -/
def kvpSize (buf : List ℕ) (p : ℕ) : ℕ := le16 (byteAt buf (p + 2)) (byteAt buf (p + 3))

/-- Little-endian encoding of a `ConfigStoreKvpHeader` with the given `key`
and `size` field values (each truncated to 16 bits, as storing into the
packed `uint16_t` fields does). -/
def encKvpHeader (key size : ℕ) : List ℕ :=
  [key % 256, key / 256 % 256, size % 256, size / 256 % 256]

/-- `sizeof(ConfigStoreKvpHeader)`: two packed `uint16_t` fields. -/
def ConfigStoreKvpHeader_byteSize : ℕ := 2 + 2

/-- `sizeof(ConfigStoreFileHeader)`: the KVP header plus `signature`
(`uint8_t`), `version` (`uint8_t`), `file_size` (`uint32_t`), `crc`
(`uint32_t`), packed. -/
def ConfigStoreFileHeader_byteSize : ℕ := 2 + 2 + 1 + 1 + 4 + 4

/-- `ConfigStoreFileHeaderKey = 0xFFFB`. -/
def ConfigStoreFileHeaderKey : ℕ := 0xFFFB

/-- `ConfigStoreFileSignature = 0xC6`. -/
def ConfigStoreFileSignature : ℕ := 0xC6

/-- `ConfigStoreFileVersion = 0`. -/
def ConfigStoreFileVersion : ℕ := 0

/-- `ConfigStoreCrcInitValue = 0xFFFFFFFF`. -/
def ConfigStoreCrcInitValue : ℕ := 0xFFFFFFFF

/-- `GetDistance(p, pEnd)`: pointer difference in bytes.  The C computes it
with `ptrdiff_t`; all uses the claims quantify over have `p ≤ pEnd`, where it
agrees with truncated natural subtraction. -/
def ConfigStore_GetDistance (p pEnd : ℕ) : ℕ := pEnd - p

/-- `ConfigStore_CanDereferenceKvp`: the KVP header at `p` declares a size of
at least `sizeof(ConfigStoreKvpHeader) = 4` that fits inside `[p, pEnd)`.
The C additionally requires the pointer `p` to be non-null; offsets into a
live buffer are never null, so that conjunct is omitted. -/
def ConfigStore_CanDereferenceKvp (buf : List ℕ) (p pEnd : ℕ) : Bool :=
  decide (4 ≤ kvpSize buf p) && decide (kvpSize buf p ≤ ConfigStore_GetDistance p pEnd)

/-- `ConfigStore_GetNextKvp`: advance by the declared size when the current
KVP is dereferenceable, otherwise by the whole remaining distance.  The C
handles a null `p` by returning null; offsets are never null here. -/
def ConfigStore_GetNextKvp (buf : List ℕ) (p pEnd : ℕ) : ℕ :=
  let dist :=
    if ConfigStore_CanDereferenceKvp buf p pEnd then kvpSize buf p
    else ConfigStore_GetDistance p pEnd
  p + dist

/-- One shift-and-conditionally-xor round of `ConfigStore_AddCrc`:
`crc = (crc >> 1) ^ (0xEDB88320 & mask)` where `mask = -(crc & 1)` is all
ones exactly when the low bit of `crc` is set. -/
def ConfigStore_AddCrcRound (crc : ℕ) : ℕ :=
  Nat.xor (crc / 2) (if crc % 2 = 1 then 0xEDB88320 else 0)

/-- Processing of one byte by `ConfigStore_AddCrc`: xor the byte in, then
eight rounds. -/
def ConfigStore_AddCrcByte (crc b : ℕ) : ℕ :=
  ConfigStore_AddCrcRound^[8] (Nat.xor crc b)

/-- `ConfigStore_AddCrc(init, data, size)` over the byte list `data`. -/
def ConfigStore_AddCrc (init : ℕ) (data : List ℕ) : ℕ :=
  data.foldl ConfigStore_AddCrcByte init

/-- The record-scan loop of `ConfigStore_ValidateFormat` after `++first`:
walk from `p`, failing if a KVP with the file-header key is met, succeeding
when `last` is reached exactly.  Fuel-indexed; each iteration strictly
advances `p`, so fuel `pEnd - p + 1` (supplied by the wrapper) never runs
out. -/
def Impl_ValidateWalkF (buf : List ℕ) (pEnd : ℕ) : ℕ → ℕ → Bool
  | 0, _ => false
  | fuel + 1, p =>
    if pEnd ≤ p then true
    else if kvpKey buf p = ConfigStoreFileHeaderKey then false
    else Impl_ValidateWalkF buf pEnd fuel (ConfigStore_GetNextKvp buf p pEnd)

/-- The record-scan loop of `ConfigStore_ValidateFormat`, with sufficient
fuel. -/
def Impl_ValidateWalk (buf : List ℕ) (p pEnd : ℕ) : Bool :=
  Impl_ValidateWalkF buf pEnd (pEnd - p + 1) p

/-- `ConfigStore_ValidateFormat(data, size)` with `size = buf.length` (the
callers pass the exact number of bytes read).  Note two facts visible in the
source and preserved here: the scan loop starts at `++first`, which advances
the `ConfigStoreKvpHeader` pointer by 4 bytes (not by the 14-byte file
header), and its end pointer `last` is `data + size` computed from the
original buffer length, not from `file_size`. -/
def ConfigStore_ValidateFormat (buf : List ℕ) : ℕ :=
  if 0 < buf.length ∧ kvpKey buf 0 = ConfigStoreFileHeaderKey ∧
      ConfigStoreFileHeader_byteSize ≤ kvpSize buf 0 then
    if byteAt buf 4 = ConfigStoreFileSignature ∧ byteAt buf 5 = ConfigStoreFileVersion ∧
        kvpSize buf 0 ≤ le32at buf 6 ∧ le32at buf 6 ≤ buf.length then
      if ConfigStore_AddCrc ConfigStoreCrcInitValue
          ((buf.take (le32at buf 6)).drop ConfigStoreFileHeader_byteSize) = le32at buf 10 then
        if Impl_ValidateWalk buf 4 buf.length then le32at buf 6 else 0
      else 0
    else 0
  else 0

/-- The in-memory `ConfigStore` state.  `data` is the byte content of the
logical image `[_begin, _end)`; `cap` is `_capacity - _begin`; `max_size` is
`_max_size`.  The file descriptor and the OS file are threaded separately by
the functions that touch them; `_replica_type` and the path fields declared
in the header are never used by this translation unit. -/
structure ConfigStore where
  data : List ℕ
  cap : ℕ
  max_size : ℕ
deriving DecidableEq, Repr

/-- `ConfigStore_ReserveCapacity`.  `allocOk` models whether `realloc`
succeeds when a larger allocation is requested; on any failure the C returns
-1 having changed no field, here `none`. -/
def ConfigStore_ReserveCapacity (allocOk : Bool) (s : ConfigStore) (capacity : ℕ) :
    Option ConfigStore :=
  if s.max_size < capacity then none
  else if s.cap < capacity then
    if allocOk then some { s with cap := capacity } else none
  else some s

/-- `ConfigStore_InvariantsCheck`: the store is open (`_fd >= 0`, modelled by
only ever forming `ConfigStore` values for opened stores), holds at least a
file header, and `_end ≤ _capacity`. -/
def ConfigStore_InvariantsCheck (s : ConfigStore) : Bool :=
  decide (ConfigStoreFileHeader_byteSize ≤ s.data.length) && decide (s.data.length ≤ s.cap)

/-- `ConfigStore_EndKvp`: the guard offset `_end - _begin`. -/
def ConfigStore_EndKvp (buf : List ℕ) : ℕ := buf.length

/-- `ConfigStore_BeginKvp`: `GetNextKvp` applied to `_begin`, which skips the
file-header record of a well-formed store. -/
def ConfigStore_BeginKvp (buf : List ℕ) : ℕ :=
  ConfigStore_GetNextKvp buf 0 (ConfigStore_EndKvp buf)

/-- `ConfigStore_InsertKvp(p, pos, key, size)`.  The C first rejects
`size + sizeof(ConfigStoreKvpHeader)` overflowing `uint16_t`, then reserves
capacity, then `memmove`s the tail `[pos, end)` right and writes the new
header at `pos`.  The value bytes are left uninitialised by the C; they are
modelled as zeros and no claim refers to their content before a write. -/
def ConfigStore_InsertKvp (allocOk : Bool) (s : ConfigStore) (pos key vsize : ℕ) :
    Option (ConfigStore × ℕ) :=
  if 65535 < vsize + ConfigStoreKvpHeader_byteSize then none
  else
    let kvp_size := vsize + ConfigStoreKvpHeader_byteSize
    match ConfigStore_ReserveCapacity allocOk s (s.data.length + kvp_size) with
    | none => none
    | some s1 =>
      some ({ s1 with
          data := s1.data.take pos ++ encKvpHeader key kvp_size ++
            List.replicate vsize 0 ++ s1.data.drop pos }, pos)

/-- The C calling convention for `ConfigStore_InsertKvp`: a null return
leaves the store object exactly as it was. -/
def ConfigStore_InsertKvp_run (allocOk : Bool) (s : ConfigStore) (pos key vsize : ℕ) :
    ConfigStore × Option ℕ :=
  match ConfigStore_InsertKvp allocOk s pos key vsize with
  | none => (s, none)
  | some (s2, r) => (s2, some r)

/-- `ConfigStore_EraseKvp`: `memmove` the bytes after the record at `pos`
(of declared size `pos->size`) left over it and shorten `_end`.  Returns the
offset where the following record now lives (that is, `pos`). -/
def ConfigStore_EraseKvp (s : ConfigStore) (pos : ℕ) : ConfigStore × ℕ :=
  ({ s with data := s.data.take pos ++ s.data.drop (pos + kvpSize s.data pos) }, pos)

/-- The loop of `Impl_FindKey`: advance while the key differs, stop at `pLast`
or at the first match.  Fuel-indexed; each iteration strictly advances the
offset, so fuel `pLast - p + 1` never runs out. -/
def Impl_FindKeyF (buf : List ℕ) (key pLast : ℕ) : ℕ → ℕ → ℕ
  | 0, p => p
  | fuel + 1, p =>
    if pLast ≤ p then p
    else if kvpKey buf p = key then p
    else Impl_FindKeyF buf key pLast fuel (ConfigStore_GetNextKvp buf p pLast)

/-- `Impl_FindKey(key, pFirst, pLast)` with sufficient fuel. -/
def Impl_FindKey (buf : List ℕ) (key p pLast : ℕ) : ℕ :=
  Impl_FindKeyF buf key pLast (pLast - p + 1) p

/-- The presence-scan loop inside `ConfigStore_AllocUniqueKvp`: walk the
records from `p` and report whether one bears `key`. -/
def Impl_AllocScanF (buf : List ℕ) (key pEnd : ℕ) : ℕ → ℕ → Bool
  | 0, _ => false
  | fuel + 1, p =>
    if pEnd ≤ p then false
    else if kvpKey buf p = key then true
    else Impl_AllocScanF buf key pEnd fuel (ConfigStore_GetNextKvp buf p pEnd)

/-- The presence scan with sufficient fuel. -/
def Impl_AllocScan (buf : List ℕ) (key p pEnd : ℕ) : Bool :=
  Impl_AllocScanF buf key pEnd (pEnd - p + 1) p

/-- The keys at the offsets visited by walking `[p, pEnd)` with
`ConfigStore_GetNextKvp`; in a well-formed image these are exactly the keys
of the records.  Same fuel discipline as the scans. -/
def walkKeysF (buf : List ℕ) (pEnd : ℕ) : ℕ → ℕ → List ℕ
  | 0, _ => []
  | fuel + 1, p =>
    if pEnd ≤ p then []
    else kvpKey buf p :: walkKeysF buf pEnd fuel (ConfigStore_GetNextKvp buf p pEnd)

/-- The visited keys with sufficient fuel. -/
def walkKeys (buf : List ℕ) (p pEnd : ℕ) : List ℕ :=
  walkKeysF buf pEnd (pEnd - p + 1) p

/-- One flat write into a byte buffer at index `i`, as `memcpy`/`memset`
perform on the store image; a write reaching past the end of the list
extends it, standing for the C writing past the bytes modelled here. -/
def listOverwrite (buf : List ℕ) (i : ℕ) (bs : List ℕ) : List ℕ :=
  buf.take i ++ bs ++ buf.drop (i + bs.length)

/-- `ConfigStore_WriteValue(pos, offset, data, size)` acting on the buffer
holding the record at offset `pos`: fail with `E2BIG` when
`offset + size` exceeds the value region `pos->size - 4` (0 when
`pos->size ≤ 4`); otherwise `memcpy` the source bytes to
`dst_data = pos + 4 + offset`, then `memset` zeroes starting at
`dst_data + last_offset` with `last_offset = offset + size`, for
`dst_size - last_offset` bytes.  Note the destination of the `memset`
counts `offset` twice (`dst_data` already includes it): for `offset > 0`
the zeroed region is shifted right by `offset` relative to the value
region and runs `offset` bytes past the end of the record. -/
def ConfigStore_WriteValue (buf : List ℕ) (pos offset : ℕ) (src : List ℕ) :
    Option (List ℕ) :=
  let dst_size := if 4 < kvpSize buf pos then kvpSize buf pos - 4 else 0
  let dst := pos + 4 + offset
  let last_offset := offset + src.length
  if dst_size < last_offset then none
  else
    let afterCopy := listOverwrite buf dst src
    some (listOverwrite afterCopy (dst + last_offset)
      (List.replicate (dst_size - last_offset) 0))

/-- The inner loop of `ConfigStore_PutUniqueKey`: erase every further record
bearing `key`, re-reading `EndKvp` after each erase.  Fuel-indexed because
the C loop does not terminate on pathological images containing a matched
record whose `size` field is 0; claims only evaluate it on inputs where the
supplied fuel suffices. -/
def Impl_PutEraseDuplicates (buf0 : ConfigStore) (key : ℕ) : ℕ → ℕ → ConfigStore
  | 0, _ => buf0
  | fuel + 1, p =>
    let e := ConfigStore_EndKvp buf0.data
    let p2 := Impl_FindKey buf0.data key p e
    if p2 = e then buf0
    else
      let r := ConfigStore_EraseKvp buf0 p2
      Impl_PutEraseDuplicates r.1 key fuel r.2

/-- The outer loop of `ConfigStore_PutUniqueKey`: find the first record with
`key`; if its `size` field differs from `value_size`, erase it and rescan
from the erase position; otherwise keep it and erase any later duplicates.
Returns the store and the offset left in `it` when the loop exits (the guard
offset when no record was kept).  Same fuel discipline as the inner loop. -/
def Impl_PutUniqueScan (key value_size : ℕ) : ℕ → ConfigStore → ℕ → ConfigStore × ℕ
  | 0, s, p => (s, p)
  | fuel + 1, s, p =>
    let e := ConfigStore_EndKvp s.data
    let it := Impl_FindKey s.data key p e
    if it = e then (s, it)
    else if kvpSize s.data it ≠ value_size then
      let r := ConfigStore_EraseKvp s it
      Impl_PutUniqueScan key value_size fuel r.1 r.2
    else
      (Impl_PutEraseDuplicates s key fuel (ConfigStore_GetNextKvp s.data it e), it)

/-- `ConfigStore_PutUniqueKey(p, key, optional_data, value_size)`.  After the
scan, a new record is inserted at `EndKvp` when no record was kept; on
insertion failure the C ends up returning null (its `it == EndKvp` guard
never fires, but the null `it` survives the ignored `WriteValue` call and is
returned).  When `optional_data` is non-null, `ConfigStore_WriteValue` is
invoked and its result is ignored, so a failing write leaves the bytes
unchanged. -/
def ConfigStore_PutUniqueKey (allocOk : Bool) (fuel : ℕ) (s : ConfigStore) (key : ℕ)
    (optional_data : Option (List ℕ)) (value_size : ℕ) : Option (ConfigStore × ℕ) :=
  let r := Impl_PutUniqueScan key value_size fuel s (ConfigStore_BeginKvp s.data)
  let s1 := r.1
  let e := ConfigStore_EndKvp s1.data
  let afterInsert : Option (ConfigStore × ℕ) :=
    if r.2 = e then ConfigStore_InsertKvp allocOk s1 e key value_size
    else some (s1, r.2)
  match afterInsert with
  | none => none
  | some (s2, it) =>
    match optional_data with
    | none => some (s2, it)
    | some d =>
      some ({ s2 with data := (ConfigStore_WriteValue s2.data it 0 d).getD s2.data }, it)

/-- The candidate-key loop of `ConfigStore_AllocUniqueKvp`: starting from
`first_key`, step by `key_increment` while the candidate is below `last_key`
and is present in the store; exit with the candidate on the first absence;
return null-with-ENOENT when the candidate leaves the range or the 16-bit
addition `first_key + key_increment` overflows.  Fuel-indexed; the wrapper
passes 65537, which never runs out when `key_increment ≥ 1` since the keys
are 16-bit. -/
def Impl_AllocKeySearchF (buf : List ℕ) (last_key key_increment : ℕ) :
    ℕ → ℕ → Option ℕ
  | 0, _ => none
  | fuel + 1, first_key =>
    if first_key < last_key then
      if Impl_AllocScan buf first_key (ConfigStore_BeginKvp buf) (ConfigStore_EndKvp buf) then
        if 65535 < first_key + key_increment then none
        else Impl_AllocKeySearchF buf last_key key_increment fuel (first_key + key_increment)
      else some first_key
    else none

/-- Result of `ConfigStore_AllocUniqueKvp`: a record, null with `ENOENT`
(range exhausted or 16-bit overflow), or null from a failed insertion
(`errno` from `ReserveCapacity`). -/
inductive ConfigStoreAllocResult where
  | ok (s : ConfigStore) (pos : ℕ)
  | noent
  | insertFail
deriving DecidableEq, Repr

/-- `ConfigStore_AllocUniqueKvp(p, first_key, last_key, value_size,
key_increment)`. -/
def ConfigStore_AllocUniqueKvp (allocOk : Bool) (s : ConfigStore)
    (first_key last_key vsize key_increment : ℕ) : ConfigStoreAllocResult :=
  match Impl_AllocKeySearchF s.data last_key key_increment 65537 first_key with
  | none => .noent
  | some k =>
    match ConfigStore_InsertKvp allocOk s (ConfigStore_EndKvp s.data) k vsize with
    | none => .insertFail
    | some (s2, pos) => .ok s2 pos

/-- `ConfigStore_Commit`: check the invariants, recompute the CRC over the
bytes after the file header, refresh `file_size` and `crc` in the header when
the first record bears the file-header key, then `lseek(0)`, `write` the whole
image, `ftruncate` to its length and `fsync`.  Returns the updated store and
the byte content the file holds afterwards; `none` models the `EINVAL`
failure.  The write, truncate and fsync system calls are modelled as
succeeding. -/
def ConfigStore_Commit (s : ConfigStore) : Option (ConfigStore × List ℕ) :=
  if ConfigStore_InvariantsCheck s then
    let crc := ConfigStore_AddCrc ConfigStoreCrcInitValue
      (s.data.drop ConfigStoreFileHeader_byteSize)
    let data2 :=
      if 0 < s.data.length ∧ kvpKey s.data 0 = ConfigStoreFileHeaderKey then
        s.data.take 6 ++ le32bytes s.data.length ++ le32bytes crc ++
          s.data.drop ConfigStoreFileHeader_byteSize
      else s.data
    some ({ s with data := data2 }, data2)
  else none

/-- Open flags as used by `Impl_ConfigStore_Open`: `writable` is
`O_WRONLY | O_RDWR`; `createOrTrunc` is `O_CREAT | O_TRUNC`. -/
structure ConfigStoreOpenFlags where
  writable : Bool
  createOrTrunc : Bool
deriving DecidableEq, Repr

/-- Error exits of `Impl_ConfigStore_Open` (beyond I/O failures of the
modelled-as-succeeding system calls). -/
inductive ConfigStoreOpenError where
  | enoent
  | erange
  | e2big
  | enomem
  | einval
deriving DecidableEq, Repr

/-- The byte image `Impl_ConfigStore_Open` builds for a new file: the KVP
header (`key = 0xFFFB`, `size = 14`) plus `signature = 0xC6`, `version = 0`;
`file_size` and `crc` are left uninitialised by the C (the first commit
overwrites them before anything reads them) and are modelled as zeros. -/
def newFileHeaderBytes : List ℕ :=
  [251, 255, 14, 0, 198, 0] ++ List.replicate 8 0

/-- `Impl_ConfigStore_Open(p, base_filepath, max_size, flags)` of the source
file (the revision without replica support): open and lock the file, measure
its length, treat an empty file as new only with a create/truncate flag,
reject lengths below `sizeof(ConfigStoreFileHeader)`, reserve capacity, then
either synthesise a fresh header or read and validate the existing bytes.
When the validated content is shorter than the file, the file is truncated to
the content length — in this revision unconditionally, with no check of the
open mode and no fsync.  Returns the store, the byte content the on-disk file
holds after the call, and whether a truncation was performed.  `open`,
`flock`, `lseek`, `read` and `ftruncate` are modelled as succeeding. -/
def Impl_ConfigStore_Open (allocOk : Bool) (file : List ℕ) (max_size : ℕ)
    (flags : ConfigStoreOpenFlags) :
    Except ConfigStoreOpenError (ConfigStore × List ℕ × Bool) :=
  let size0 := file.length
  if size0 = 0 ∧ flags.createOrTrunc = false then .error .enoent
  else
    let size := if size0 = 0 then ConfigStoreFileHeader_byteSize else size0
    if size < ConfigStoreFileHeader_byteSize then .error .erange
    else if max_size < size then .error .e2big
    else if allocOk = false then .error .enomem
    else if size0 = 0 then
      .ok ({ data := newFileHeaderBytes, cap := size, max_size := max_size }, file, false)
    else
      let content_size := ConfigStore_ValidateFormat file
      if content_size = 0 then .error .einval
      else if content_size < size then
        .ok ({ data := file.take content_size, cap := size, max_size := max_size },
          file.take content_size, true)
      else
        .ok ({ data := file.take content_size, cap := size, max_size := max_size },
          file, false)

/-- Decidable equality for `Except`, so that runs of the open function can be
checked on concrete inputs. -/
instance {ε α : Type} [DecidableEq ε] [DecidableEq α] : DecidableEq (Except ε α) := fun x y =>
  match x, y with
  | .ok a, .ok b => decidable_of_iff (a = b) (by simp)
  | .error a, .error b => decidable_of_iff (a = b) (by simp)
  | .ok _, .error _ => isFalse fun h => Except.noConfusion h
  | .error _, .ok _ => isFalse fun h => Except.noConfusion h

/-- C1: refutation at the failing input.  The 22-byte image below has a
conforming file header (key `0xFFFB`, size 14, signature `0xC6`, version 0,
`file_size = 22`, correct CRC over bytes `[14, 22)`) followed by one record
at offset 14 that bears the reserved key `0xFFFB`; walking from the offset
after the header with `file_size` as end lands exactly on 22 through that
record.  The claim requires `ConfigStore_ValidateFormat` to return 0 on any
such image; the code returns 22, because its scan loop starts at byte
offset 4 (`++first` advances by `sizeof(ConfigStoreKvpHeader)`, not by the
14-byte file header) and there jumps straight past the offending record. -/
theorem C1_code_bug_eval :
    ConfigStore_ValidateFormat
        [251, 255, 14, 0, 198, 0, 22, 0, 0, 0, 215, 224, 185, 70, 251, 255, 8, 0, 0, 0, 0, 0] =
      22
  ∧ kvpKey [251, 255, 14, 0, 198, 0, 22, 0, 0, 0, 215, 224, 185, 70, 251, 255, 8, 0, 0, 0, 0, 0]
      14 = ConfigStoreFileHeaderKey
  ∧ ConfigStore_GetNextKvp
      [251, 255, 14, 0, 198, 0, 22, 0, 0, 0, 215, 224, 185, 70, 251, 255, 8, 0, 0, 0, 0, 0]
      14 22 = 22 := by
  decide

/-- C2: counterexample.  Opening an empty file with the create flag and
committing writes a file of 14 bytes whose header `size` field is 14 — not
12 as the claim states: the packed `ConfigStoreFileHeader` occupies
`2 + 2 + 1 + 1 + 4 + 4 = 14` bytes. -/
theorem C2_counterexample :
    Impl_ConfigStore_Open true [] 8192 ⟨true, true⟩ =
      .ok ({ data := newFileHeaderBytes, cap := 14, max_size := 8192 }, [], false)
  ∧ ConfigStore_Commit { data := newFileHeaderBytes, cap := 14, max_size := 8192 } =
      some ({ data := [251, 255, 14, 0, 198, 0, 14, 0, 0, 0, 255, 255, 255, 255], cap := 14,
              max_size := 8192 },
        [251, 255, 14, 0, 198, 0, 14, 0, 0, 0, 255, 255, 255, 255])
  ∧ ¬ ([251, 255, 14, 0, 198, 0, 14, 0, 0, 0, 255, 255, 255, 255] : List ℕ).length = 12
  ∧ ¬ kvpSize [251, 255, 14, 0, 198, 0, 14, 0, 0, 0, 255, 255, 255, 255] 0 = 12
  ∧ ¬ ConfigStoreFileHeader_byteSize = 12 := by
  decide

/-- C3: refutation at the failing input.  The store below holds the record
sequence `(key 7, total size 8)`, `(key 9, total size 8)` after the file
header.  `ConfigStore_PutUniqueKey(p, 7, data, 4)` requests a total of
`4 + 4 = 8` bytes, equal to the total size of the existing key-7 record, so
the claim requires that record to be reused in place at offset 14.  The code
compares `it->size` (8) against the raw `value_size` argument (4) — not
against `value_size + 4` — so it erases the record and appends a fresh one
at the end: afterwards offset 14 holds the key-9 record. -/
theorem C3_code_bug_eval :
    ConfigStore_PutUniqueKey true 100
        ⟨[251, 255, 14, 0, 198, 0, 14, 0, 0, 0, 255, 255, 255, 255,
          7, 0, 8, 0, 1, 2, 3, 4, 9, 0, 8, 0, 5, 6, 7, 8], 30, 100⟩
        7 (some [9, 9, 9, 9]) 4 =
      some (⟨[251, 255, 14, 0, 198, 0, 14, 0, 0, 0, 255, 255, 255, 255,
              9, 0, 8, 0, 5, 6, 7, 8, 7, 0, 8, 0, 9, 9, 9, 9], 30, 100⟩, 22)
  ∧ kvpSize [251, 255, 14, 0, 198, 0, 14, 0, 0, 0, 255, 255, 255, 255,
      7, 0, 8, 0, 1, 2, 3, 4, 9, 0, 8, 0, 5, 6, 7, 8] 14 = 4 + 4
  ∧ kvpKey [251, 255, 14, 0, 198, 0, 14, 0, 0, 0, 255, 255, 255, 255,
      9, 0, 8, 0, 5, 6, 7, 8, 7, 0, 8, 0, 9, 9, 9, 9] 14 = 9 := by
  decide

/-- C4: counterexample.  The 18-byte file below is a valid committed
14-byte image followed by 4 stray bytes, so its validated content length
(14) is strictly below its on-disk length (18).  The claim says a read-only
open leaves the on-disk file unmodified; in this revision the code truncates
unconditionally — opening with `writable = false` still shortens the file to
14 bytes. -/
theorem C4_counterexample :
    Impl_ConfigStore_Open true
        ([251, 255, 14, 0, 198, 0, 14, 0, 0, 0, 255, 255, 255, 255] ++ [0, 0, 0, 0]) 100
        ⟨false, false⟩ =
      .ok ({ data := [251, 255, 14, 0, 198, 0, 14, 0, 0, 0, 255, 255, 255, 255], cap := 18,
             max_size := 100 },
        [251, 255, 14, 0, 198, 0, 14, 0, 0, 0, 255, 255, 255, 255], true)
  ∧ ¬ ([251, 255, 14, 0, 198, 0, 14, 0, 0, 0, 255, 255, 255, 255] : List ℕ) =
      [251, 255, 14, 0, 198, 0, 14, 0, 0, 0, 255, 255, 255, 255] ++ [0, 0, 0, 0] := by
  decide

/-- C6: counterexample.  In the byte range `[0, 10)` below, the record at 0
declares size 6, so `ConfigStore_GetNextKvp` returns offset 6; the bytes at
offset 6 declare size 3, which is not dereferenceable, yet the returned
offset 6 differs from the end 10 — this revision of the walker does not
clamp its result to `end`. -/
theorem C6_counterexample :
    ConfigStore_GetNextKvp [0, 0, 6, 0, 0, 0, 0, 0, 3, 0] 0 10 = 6
  ∧ ConfigStore_CanDereferenceKvp [0, 0, 6, 0, 0, 0, 0, 0, 3, 0] 6 10 = false
  ∧ (6 : ℕ) ≠ 10 := by
  decide

theorem kvpHeaderByteSize_eq : ConfigStoreKvpHeader_byteSize = 4 := rfl

theorem fileHeaderByteSize_eq : ConfigStoreFileHeader_byteSize = 14 := rfl

/-- C8: refutation at the failing input.  The buffer below holds a record
of total size 10 at offset 0 (key 7, value bytes `1 2 3 4 5 6`) followed by
one byte (99) belonging to the space after the record.
`ConfigStore_WriteValue(record, 1, [9, 9], 2)` succeeds — the `E2BIG` bound
of the claim is checked correctly — but the claim requires the value bytes
`[3, 6)` (buffer indices 7, 8, 9) to be zeroed and everything past the
record left unchanged.  The C computes `dst_data = pos + 4 + offset` and
then `memset(dst_data + (offset + len), …)`, counting `offset` twice: it
zeroes buffer indices 8, 9, 10 instead, so the value byte at index 7 keeps
its old value 4 and the byte at index 10, one past the end of the 10-byte
record, is clobbered from 99 to 0. -/
theorem C8_code_bug_eval :
    ConfigStore_WriteValue [7, 0, 10, 0, 1, 2, 3, 4, 5, 6, 99] 0 1 [9, 9] =
      some [7, 0, 10, 0, 1, 9, 9, 4, 0, 0, 0]
  ∧ byteAt [7, 0, 10, 0, 1, 9, 9, 4, 0, 0, 0] 7 = 4
  ∧ byteAt [7, 0, 10, 0, 1, 9, 9, 4, 0, 0, 0] 10 = 0
  ∧ byteAt [7, 0, 10, 0, 1, 2, 3, 4, 5, 6, 99] 10 = 99
  ∧ kvpSize [7, 0, 10, 0, 1, 2, 3, 4, 5, 6, 99] 0 = 10 := by
  decide

/-- `ConfigStore_ReserveCapacity` never changes `data` or `max_size` when it
succeeds. -/
theorem reserveCapacity_some_fields (allocOk : Bool) (s : ConfigStore) (c : ℕ)
    (s1 : ConfigStore) (h : ConfigStore_ReserveCapacity allocOk s c = some s1) :
    s1.data = s.data ∧ s1.max_size = s.max_size := by
  unfold ConfigStore_ReserveCapacity at h
  split_ifs at h
  all_goals injection h with hh
  all_goals rw [← hh]
  all_goals exact ⟨rfl, rfl⟩

/-- `ConfigStore_ReserveCapacity` fails exactly when the requested capacity
exceeds `max_size`, or a larger allocation is needed and `realloc` fails. -/
theorem reserveCapacity_none_iff (allocOk : Bool) (s : ConfigStore) (c : ℕ) :
    ConfigStore_ReserveCapacity allocOk s c = none ↔
      s.max_size < c ∨ (s.cap < c ∧ allocOk = false) := by
  unfold ConfigStore_ReserveCapacity
  split_ifs with h1 h2 h3 <;> simp_all

/-- Inversion of a successful `ConfigStore_InsertKvp`. -/
theorem insertKvp_some (allocOk : Bool) (s : ConfigStore) (pos key vsize : ℕ)
    (s2 : ConfigStore) (r : ℕ)
    (h : ConfigStore_InsertKvp allocOk s pos key vsize = some (s2, r)) :
    r = pos ∧ vsize + 4 ≤ 65535 ∧
    s2.data = s.data.take pos ++ encKvpHeader key (vsize + 4) ++
      List.replicate vsize 0 ++ s.data.drop pos := by
  unfold ConfigStore_InsertKvp at h
  rw [kvpHeaderByteSize_eq] at h
  dsimp only at h
  split_ifs at h with h1
  cases hr : ConfigStore_ReserveCapacity allocOk s (s.data.length + (vsize + 4)) with
  | none => rw [hr] at h; exact absurd h (by simp)
  | some s1 =>
    rw [hr] at h
    obtain ⟨hdata, _⟩ := reserveCapacity_some_fields _ _ _ _ hr
    simp only [Option.some.injEq, Prod.mk.injEq] at h
    obtain ⟨h2, h3⟩ := h
    refine ⟨h3.symm, by omega, ?_⟩
    rw [← h2, hdata]

/-- `ConfigStore_InsertKvp` fails exactly on 16-bit overflow of
`value_size + 4`, on the new length exceeding `max_size`, or on a failed
reallocation. -/
theorem insertKvp_none_iff (allocOk : Bool) (s : ConfigStore) (pos key vsize : ℕ) :
    ConfigStore_InsertKvp allocOk s pos key vsize = none ↔
      65535 < vsize + 4 ∨ s.max_size < s.data.length + (vsize + 4) ∨
      (s.cap < s.data.length + (vsize + 4) ∧ allocOk = false) := by
  unfold ConfigStore_InsertKvp
  rw [kvpHeaderByteSize_eq]
  dsimp only
  split_ifs with h1
  · simp [h1]
  · cases hr : ConfigStore_ReserveCapacity allocOk s (s.data.length + (vsize + 4)) with
    | none =>
      have := (reserveCapacity_none_iff allocOk s _).mp hr
      simp [h1, this]
    | some s1 =>
      have : ¬ (s.max_size < s.data.length + (vsize + 4) ∨
          (s.cap < s.data.length + (vsize + 4) ∧ allocOk = false)) := by
        intro hc
        rw [(reserveCapacity_none_iff allocOk s _).mpr hc] at hr
        exact Option.noConfusion hr
      simp [h1, this]

/-- Reading the KVP header fields back from a freshly written
`encKvpHeader` at offset `pos` of `d.take pos ++ encKvpHeader key sz ++ rest`
recovers `key` and `sz` modulo 2^16 (the truncation performed by storing into
the packed `uint16_t` fields). -/
theorem encHeader_fields (d : List ℕ) (pos key sz : ℕ) (hpos : pos ≤ d.length)
    (rest : List ℕ) :
    kvpKey (d.take pos ++ encKvpHeader key sz ++ rest) pos = key % 65536
  ∧ kvpSize (d.take pos ++ encKvpHeader key sz ++ rest) pos = sz % 65536 := by
  have hlen : (d.take pos).length = pos := by
    rw [List.length_take]
    omega
  have hread : ∀ idx, idx < 4 →
      byteAt (d.take pos ++ encKvpHeader key sz ++ rest) (pos + idx) =
        (encKvpHeader key sz).getD idx 0 := by
    intro idx hidx
    unfold byteAt
    rw [List.getD_append _ _ _ _ (by simp [encKvpHeader]; omega),
      List.getD_append_right _ _ _ _ (by omega), hlen,
      show pos + idx - pos = idx by omega]
  have h0 := hread 0 (by omega)
  have h1 := hread 1 (by omega)
  have h2 := hread 2 (by omega)
  have h3 := hread 3 (by omega)
  rw [Nat.add_zero] at h0
  constructor
  · unfold kvpKey
    rw [h0, h1]
    simp [encKvpHeader, le16]
    omega
  · unfold kvpSize
    rw [h2, h3]
    simp [encKvpHeader, le16]
    omega

/-- C9: `ConfigStore_InsertKvp` rejects exactly the value sizes whose total
`value_size + 4` overflows `uint16_t`, i.e. every `value_size > 65531`
returns null; for `value_size ≤ 65531` the overflow check passes, and when
the insertion succeeds the record written at `pos` has `size` field
`value_size + 4`. -/
theorem C9_thm (allocOk : Bool) (s : ConfigStore) (pos key vsize : ℕ)
    (hpos : pos ≤ s.data.length) :
    (65531 < vsize → ConfigStore_InsertKvp allocOk s pos key vsize = none)
  ∧ (vsize ≤ 65531 →
      ¬ 65535 < vsize + ConfigStoreKvpHeader_byteSize ∧
      ∀ s2 r, ConfigStore_InsertKvp allocOk s pos key vsize = some (s2, r) →
        r = pos ∧ kvpSize s2.data pos = vsize + 4) := by
  constructor
  · intro hbig
    rw [insertKvp_none_iff]
    omega
  · intro hsmall
    refine ⟨by rw [kvpHeaderByteSize_eq]; omega, ?_⟩
    intro s2 r h
    obtain ⟨hr, hle, hdata⟩ := insertKvp_some allocOk s pos key vsize s2 r h
    refine ⟨hr, ?_⟩
    have hfields := (encHeader_fields s.data pos key (vsize + 4) hpos
      (List.replicate vsize 0 ++ s.data.drop pos)).2
    rw [List.append_assoc] at hdata
    rw [hdata, hfields]
    omega

/-- C9 witness at a concrete store and position. -/
theorem C9_witness :
    (65531 < 2 → ConfigStore_InsertKvp true ⟨[1, 0, 4, 0], 4, 100⟩ 4 9 2 = none)
  ∧ (2 ≤ 65531 →
      ¬ 65535 < 2 + ConfigStoreKvpHeader_byteSize ∧
      ∀ s2 r, ConfigStore_InsertKvp true ⟨[1, 0, 4, 0], 4, 100⟩ 4 9 2 = some (s2, r) →
        r = 4 ∧ kvpSize s2.data 4 = 2 + 4) :=
  C9_thm true ⟨[1, 0, 4, 0], 4, 100⟩ 4 9 2 (by decide)

/-- C10: whenever `ConfigStore_InsertKvp` returns null — on 16-bit overflow
of `value_size + 4`, on the new length exceeding the configured max, or on a
failed reallocation — the observable store state (the whole byte content,
hence also the logical length) is exactly as before the call. -/
theorem C10_thm (allocOk : Bool) (s : ConfigStore) (pos key vsize : ℕ) :
    ((ConfigStore_InsertKvp_run allocOk s pos key vsize).2 = none →
      (ConfigStore_InsertKvp_run allocOk s pos key vsize).1 = s)
  ∧ ((ConfigStore_InsertKvp_run allocOk s pos key vsize).2 = none ↔
      65535 < vsize + 4 ∨ s.max_size < s.data.length + (vsize + 4) ∨
      (s.cap < s.data.length + (vsize + 4) ∧ allocOk = false)) := by
  unfold ConfigStore_InsertKvp_run
  cases h : ConfigStore_InsertKvp allocOk s pos key vsize with
  | none =>
    refine ⟨fun _ => rfl, ?_⟩
    simpa using (insertKvp_none_iff allocOk s pos key vsize).mp h
  | some v =>
    refine ⟨fun hc => absurd hc (by simp), ?_⟩
    have : ¬ ConfigStore_InsertKvp allocOk s pos key vsize = none := by
      rw [h]; exact fun hc => Option.noConfusion hc
    rw [insertKvp_none_iff] at this
    simpa using this

/-- C10 witness: at `value_size = 65532` the call fails and the store is
returned unchanged. -/
theorem C10_witness :
    ((ConfigStore_InsertKvp_run true ⟨[1, 0, 4, 0], 4, 100⟩ 4 9 65532).2 = none →
      (ConfigStore_InsertKvp_run true ⟨[1, 0, 4, 0], 4, 100⟩ 4 9 65532).1 =
        ⟨[1, 0, 4, 0], 4, 100⟩)
  ∧ ((ConfigStore_InsertKvp_run true ⟨[1, 0, 4, 0], 4, 100⟩ 4 9 65532).2 = none ↔
      65535 < 65532 + 4 ∨ (100 : ℕ) < 4 + (65532 + 4) ∨
      ((4 : ℕ) < 4 + (65532 + 4) ∧ true = false)) :=
  C10_thm true ⟨[1, 0, 4, 0], 4, 100⟩ 4 9 65532

/-- The end offset is a fixed point of the walker. -/
theorem getNextKvp_end_fixed (buf : List ℕ) (e : ℕ) :
    ConfigStore_GetNextKvp buf e e = e := by
  unfold ConfigStore_GetNextKvp ConfigStore_CanDereferenceKvp ConfigStore_GetDistance
  have h : ¬ (4 ≤ kvpSize buf e ∧ kvpSize buf e ≤ e - e) := by omega
  simp only [decide_eq_true_eq, Bool.and_eq_true]
  rw [if_neg h]
  omega

/-- From any offset `p ≤ e`, iterating the walker `e - p` times lands
exactly on `e`: every step from below `e` strictly advances (by the declared
size, at least 4, when dereferenceable; straight to `e` otherwise). -/
theorem walkIterate_reaches (buf : List ℕ) (e : ℕ) :
    ∀ k p, p ≤ e → e - p ≤ k →
      (fun q => ConfigStore_GetNextKvp buf q e)^[k] p = e := by
  intro k
  induction k with
  | zero =>
    intro p h1 h2
    have : p = e := by omega
    simp [this]
  | succ k ih =>
    intro p h1 h2
    rw [Function.iterate_succ_apply]
    by_cases hpe : p = e
    · rw [hpe, getNextKvp_end_fixed]
      exact ih e le_rfl (by omega)
    · have hlt : p < e := lt_of_le_of_ne h1 hpe
      cases hderef : ConfigStore_CanDereferenceKvp buf p e with
      | false =>
        have hstep : ConfigStore_GetNextKvp buf p e = e := by
          unfold ConfigStore_GetNextKvp ConfigStore_GetDistance
          rw [hderef]
          simp
          omega
        rw [hstep]
        exact ih e le_rfl (by omega)
      | true =>
        have hbounds : 4 ≤ kvpSize buf p ∧ kvpSize buf p ≤ e - p := by
          have := hderef
          unfold ConfigStore_CanDereferenceKvp ConfigStore_GetDistance at this
          simpa using this
        have hstep : ConfigStore_GetNextKvp buf p e = p + kvpSize buf p := by
          unfold ConfigStore_GetNextKvp
          rw [hderef]
          simp
        rw [hstep]
        exact ih (p + kvpSize buf p) (by omega) (by omega)

/-- The walker only consults bytes strictly below `e`: two buffers agreeing
on `[0, e)` produce the same step. -/
theorem getNextKvp_locality (buf buf2 : List ℕ) (p e : ℕ) (hpe : p ≤ e)
    (hagree : ∀ i, i < e → byteAt buf i = byteAt buf2 i) :
    ConfigStore_GetNextKvp buf p e = ConfigStore_GetNextKvp buf2 p e := by
  by_cases h4 : p + 4 ≤ e
  · have hsz : kvpSize buf p = kvpSize buf2 p := by
      unfold kvpSize
      rw [hagree (p + 2) (by omega), hagree (p + 3) (by omega)]
    unfold ConfigStore_GetNextKvp ConfigStore_CanDereferenceKvp
    rw [hsz]
  · have hb : ∀ b : List ℕ, ConfigStore_CanDereferenceKvp b p e = false := by
      intro b
      unfold ConfigStore_CanDereferenceKvp ConfigStore_GetDistance
      simp only [Bool.and_eq_false_iff, decide_eq_false_iff_not]
      omega
    unfold ConfigStore_GetNextKvp
    rw [hb, hb]
    simp

/-- C6 (amended): for every byte range `[p, e)` with `p ≤ e`, repeatedly
applying `ConfigStore_GetNextKvp` reaches `e` in at most `e - p` steps, and
the step depends only on the bytes strictly below `e` (the distance guard
makes the value of any bytes at or beyond `e` irrelevant, even though the C
dereferences the size field whenever `p` is non-null).  The original claim
is refuted by `C6_counterexample`: this revision does not clamp the result,
so a returned offset that is not itself dereferenceable can differ from
`e`. -/
theorem C6_amended_thm (buf buf2 : List ℕ) (p e : ℕ) (hpe : p ≤ e)
    (hagree : ∀ i, i < e → byteAt buf i = byteAt buf2 i) :
    (fun q => ConfigStore_GetNextKvp buf q e)^[e - p] p = e
  ∧ ConfigStore_GetNextKvp buf p e = ConfigStore_GetNextKvp buf2 p e :=
  ⟨walkIterate_reaches buf e (e - p) p hpe le_rfl,
    getNextKvp_locality buf buf2 p e hpe hagree⟩

/-- C6 witness at the concrete range of the counterexample. -/
theorem C6_witness :
    (fun q => ConfigStore_GetNextKvp [0, 0, 6, 0, 0, 0, 0, 0, 3, 0] q 10)^[10 - 0] 0 = 10
  ∧ ConfigStore_GetNextKvp [0, 0, 6, 0, 0, 0, 0, 0, 3, 0] 0 10 =
      ConfigStore_GetNextKvp [0, 0, 6, 0, 0, 0, 0, 0, 3, 0] 0 10 :=
  C6_amended_thm [0, 0, 6, 0, 0, 0, 0, 0, 3, 0] [0, 0, 6, 0, 0, 0, 0, 0, 3, 0] 0 10
    (by omega) (fun _ _ => rfl)

set_option maxRecDepth 4096 in
/-- C2 (amended): opening an empty file with the create flag yields a store
holding only the 14-byte file header, and an immediate successful
`ConfigStore_Commit` writes an on-disk file of exactly 14 bytes — key
`0xFFFB`, `size` field 14, signature `0xC6`, version 0, `file_size` 14
little-endian, `crc = 0xFFFFFFFF` (the CRC-32 of the empty byte sequence
with init `0xFFFFFFFF`); equivalently, the packed file-header record
occupies 14 bytes.  The commit conjunct holds for any store whose image is
the freshly created header regardless of the uninitialised `file_size` and
`crc` bytes, which the commit overwrites. -/
theorem C2_amended_thm (M : ℕ) (hM : 14 ≤ M) (s : ConfigStore)
    (hpre : s.data.take 6 = [251, 255, 14, 0, 198, 0])
    (hlen : s.data.length = 14) (hcap : s.data.length ≤ s.cap) :
    Impl_ConfigStore_Open true [] M ⟨true, true⟩ =
      .ok ({ data := newFileHeaderBytes, cap := 14, max_size := M }, [], false)
  ∧ ConfigStore_Commit s =
      some ({ s with data := [251, 255, 14, 0, 198, 0, 14, 0, 0, 0, 255, 255, 255, 255] },
        [251, 255, 14, 0, 198, 0, 14, 0, 0, 0, 255, 255, 255, 255])
  ∧ ConfigStoreFileHeader_byteSize = 14 := by
  refine ⟨?_, ?_, rfl⟩
  · have hns : ¬ M < ConfigStoreFileHeader_byteSize := by
      rw [fileHeaderByteSize_eq]; omega
    simp [Impl_ConfigStore_Open, hns, fileHeaderByteSize_eq, hM]
  · obtain ⟨t, ht⟩ : ∃ t, s.data = [251, 255, 14, 0, 198, 0] ++ t := by
      refine ⟨s.data.drop 6, ?_⟩
      conv_lhs => rw [← List.take_append_drop 6 s.data]
      rw [hpre]
    have ht8 : t.length = 8 := by
      have h2 := hlen
      rw [ht] at h2
      simp at h2
      omega
    have hinv : ConfigStore_InvariantsCheck s = true := by
      unfold ConfigStore_InvariantsCheck
      simp only [Bool.and_eq_true, decide_eq_true_eq, fileHeaderByteSize_eq]
      omega
    unfold ConfigStore_Commit
    rw [hinv, if_pos rfl]
    dsimp only
    rw [fileHeaderByteSize_eq, ht]
    have hkey : kvpKey ([251, 255, 14, 0, 198, 0] ++ t) 0 = ConfigStoreFileHeaderKey := by
      unfold kvpKey byteAt
      rw [List.getD_append _ _ _ _ (by decide), List.getD_append _ _ _ _ (by decide)]
      decide
    have hdrop : ([251, 255, 14, 0, 198, 0] ++ t).drop 14 = [] := by
      rw [List.drop_eq_nil_iff]
      simp [ht8]
    have htake : ([251, 255, 14, 0, 198, 0] ++ t).take 6 = [251, 255, 14, 0, 198, 0] :=
      List.take_left' rfl
    have hlength : ([251, 255, 14, 0, 198, 0] ++ t).length = 14 := by
      simp [ht8]
    rw [if_pos ⟨by simp, hkey⟩, hdrop, htake, hlength]
    have hcrc : ConfigStore_AddCrc ConfigStoreCrcInitValue [] = 4294967295 := by decide
    rw [hcrc]
    have h14 : le32bytes 14 = [14, 0, 0, 0] := by decide
    have hff : le32bytes 4294967295 = [255, 255, 255, 255] := by decide
    rw [h14, hff]
    simp

/-- C2 witness: the amended claim instantiated on the store produced by
opening an empty file. -/
theorem C2_witness :
    Impl_ConfigStore_Open true [] 8192 ⟨true, true⟩ =
      .ok ({ data := newFileHeaderBytes, cap := 14, max_size := 8192 }, [], false)
  ∧ ConfigStore_Commit { data := newFileHeaderBytes, cap := 14, max_size := 8192 } =
      some ({ data := [251, 255, 14, 0, 198, 0, 14, 0, 0, 0, 255, 255, 255, 255], cap := 14,
              max_size := 8192 },
        [251, 255, 14, 0, 198, 0, 14, 0, 0, 0, 255, 255, 255, 255])
  ∧ ConfigStoreFileHeader_byteSize = 14 :=
  C2_amended_thm 8192 (by decide) ⟨newFileHeaderBytes, 14, 8192⟩ (by decide) (by decide)
    (by decide)

/-- A nonzero result of `ConfigStore_ValidateFormat` lies between 14 and the
buffer length. -/
theorem validateFormat_le_length (buf : List ℕ) (h : ConfigStore_ValidateFormat buf ≠ 0) :
    14 ≤ ConfigStore_ValidateFormat buf ∧ ConfigStore_ValidateFormat buf ≤ buf.length := by
  unfold ConfigStore_ValidateFormat at h ⊢
  rw [fileHeaderByteSize_eq] at h ⊢
  split_ifs at h ⊢ with h1 h2 h3 h4
  · obtain ⟨h11, h12, h13⟩ := h1
    obtain ⟨h21, h22, h23, h24⟩ := h2
    exact ⟨by omega, h24⟩
  all_goals exact absurd rfl h

/-- C4 (amended): whenever the validated content length is nonzero and
strictly below the on-disk length (and the file fits in the configured max),
`Impl_ConfigStore_Open` succeeds with the logical end set to the content
length and truncates the on-disk file to the content length — regardless of
whether the open is read-only or writable, and with no fsync after the
truncation (this revision has no mode check there). -/
theorem C4_amended_thm (file : List ℕ) (M : ℕ) (flags : ConfigStoreOpenFlags)
    (h1 : ConfigStore_ValidateFormat file ≠ 0)
    (h2 : ConfigStore_ValidateFormat file < file.length)
    (h3 : file.length ≤ M) :
    Impl_ConfigStore_Open true file M flags =
      .ok ({ data := file.take (ConfigStore_ValidateFormat file), cap := file.length,
             max_size := M }, file.take (ConfigStore_ValidateFormat file), true) := by
  obtain ⟨hv14, hvlen⟩ := validateFormat_le_length file h1
  unfold Impl_ConfigStore_Open
  rw [fileHeaderByteSize_eq]
  dsimp only
  rw [if_neg (show ¬ (file.length = 0 ∧ flags.createOrTrunc = false) from
    fun hc => by omega),
    if_neg (show ¬ file.length = 0 by omega)]
  rw [if_neg (show ¬ file.length < 14 by omega),
    if_neg (show ¬ M < file.length by omega),
    if_neg (show ¬ true = false by simp),
    if_neg (show ¬ file.length = 0 by omega),
    if_neg h1, if_pos h2]

/-- C4 witness: the amended claim at the concrete 18-byte crash-leftover
file, opened writable. -/
theorem C4_witness :
    Impl_ConfigStore_Open true
        ([251, 255, 14, 0, 198, 0, 14, 0, 0, 0, 255, 255, 255, 255] ++ [0, 0, 0, 0]) 100
        ⟨true, false⟩ =
      .ok ({ data :=
              ([251, 255, 14, 0, 198, 0, 14, 0, 0, 0, 255, 255, 255, 255] ++ [0, 0, 0, 0]).take
                (ConfigStore_ValidateFormat
                  ([251, 255, 14, 0, 198, 0, 14, 0, 0, 0, 255, 255, 255, 255] ++ [0, 0, 0, 0])),
             cap := ([251, 255, 14, 0, 198, 0, 14, 0, 0, 0, 255, 255, 255, 255] ++
               [0, 0, 0, 0]).length,
             max_size := 100 },
        ([251, 255, 14, 0, 198, 0, 14, 0, 0, 0, 255, 255, 255, 255] ++ [0, 0, 0, 0]).take
          (ConfigStore_ValidateFormat
            ([251, 255, 14, 0, 198, 0, 14, 0, 0, 0, 255, 255, 255, 255] ++ [0, 0, 0, 0])),
        true) :=
  C4_amended_thm ([251, 255, 14, 0, 198, 0, 14, 0, 0, 0, 255, 255, 255, 255] ++ [0, 0, 0, 0])
    100 ⟨true, false⟩ (by decide) (by decide) (by decide)

/-- The presence scan reports exactly membership of the key in the keys at
the visited walk offsets (same fuel). -/
theorem allocScanF_eq_mem (buf : List ℕ) (key pEnd : ℕ) :
    ∀ fuel p, Impl_AllocScanF buf key pEnd fuel p = true ↔
      key ∈ walkKeysF buf pEnd fuel p := by
  intro fuel
  induction fuel with
  | zero => intro p; simp [Impl_AllocScanF, walkKeysF]
  | succ fuel ih =>
    intro p
    by_cases hp : pEnd ≤ p
    · simp [Impl_AllocScanF, walkKeysF, hp]
    · by_cases hk : kvpKey buf p = key
      · simp [Impl_AllocScanF, walkKeysF, hp, hk]
      · rw [show Impl_AllocScanF buf key pEnd (fuel + 1) p =
            Impl_AllocScanF buf key pEnd fuel (ConfigStore_GetNextKvp buf p pEnd) from by
          simp [Impl_AllocScanF, hp, hk]]
        rw [show walkKeysF buf pEnd (fuel + 1) p =
            kvpKey buf p :: walkKeysF buf pEnd fuel (ConfigStore_GetNextKvp buf p pEnd) from by
          simp [walkKeysF, hp]]
        rw [ih]
        constructor
        · exact fun hmem => List.mem_cons_of_mem _ hmem
        · intro hmem
          rcases List.mem_cons.mp hmem with heq | hmem2
          · exact absurd heq.symm hk
          · exact hmem2

/-- The fuelled presence scan and visited-keys list agree through the
wrappers. -/
theorem allocScan_eq_mem (buf : List ℕ) (key p pEnd : ℕ) :
    Impl_AllocScan buf key p pEnd = true ↔ key ∈ walkKeys buf p pEnd :=
  allocScanF_eq_mem buf key pEnd (pEnd - p + 1) p

/-- Inversion of a successful candidate search: the candidate lies between
the start key and `last_key`, is reached by whole increments, and is absent
from the store. -/
theorem allocKeySearchF_some (buf : List ℕ) (b i : ℕ) :
    ∀ fuel fk k, Impl_AllocKeySearchF buf b i fuel fk = some k →
      fk ≤ k ∧ k < b ∧
      Impl_AllocScan buf k (ConfigStore_BeginKvp buf) (ConfigStore_EndKvp buf) = false ∧
      ∃ j, k = fk + j * i := by
  intro fuel
  induction fuel with
  | zero => intro fk k h; exact absurd h (by simp [Impl_AllocKeySearchF])
  | succ fuel ih =>
    intro fk k h
    unfold Impl_AllocKeySearchF at h
    split_ifs at h with hfb hscan hov
    · obtain ⟨ha, hb2, hc, j, hj⟩ := ih (fk + i) k h
      have hsm : (j + 1) * i = j * i + i := Nat.succ_mul j i
      exact ⟨by omega, hb2, hc, j + 1, by omega⟩
    · injection h with hh
      refine ⟨by omega, by omega, ?_, 0, by omega⟩
      rw [← hh]
      simpa using hscan

/-- If the candidate search exhausts (null with `ENOENT`), every candidate
`fk + j * i` below `last_key` is present — given a 16-bit `last_key`, a
positive increment and enough fuel. -/
theorem allocKeySearchF_none_all (buf : List ℕ) (b i : ℕ) (hi : 1 ≤ i) (hb : b ≤ 65535) :
    ∀ fuel fk, b - fk < fuel →
      Impl_AllocKeySearchF buf b i fuel fk = none →
      ∀ j, fk + j * i < b →
        Impl_AllocScan buf (fk + j * i) (ConfigStore_BeginKvp buf) (ConfigStore_EndKvp buf) =
          true := by
  intro fuel
  induction fuel with
  | zero => intro fk hf; exact absurd hf (by omega)
  | succ fuel ih =>
    intro fk hf hnone j hj
    unfold Impl_AllocKeySearchF at hnone
    split_ifs at hnone with hfb hscan hov
    · rcases Nat.eq_zero_or_pos j with rfl | hj1
      · rw [show fk + 0 * i = fk by omega]
        simpa using hscan
      · exfalso
        have hle : i ≤ j * i := Nat.le_mul_of_pos_left i hj1
        omega
    · rcases Nat.eq_zero_or_pos j with rfl | hj1
      · rw [show fk + 0 * i = fk by omega]
        simpa using hscan
      · have hsm : j * i = (j - 1) * i + i := by
          have h6 : (j - 1 + 1) * i = (j - 1) * i + i := Nat.succ_mul (j - 1) i
          rw [show j - 1 + 1 = j by omega] at h6
          omega
        have h7 := ih (fk + i) (by omega) hnone (j - 1) (by omega)
        rw [show fk + i + (j - 1) * i = fk + j * i by omega] at h7
        exact h7
    · exfalso; omega

/-- If every candidate below `last_key` is present, the candidate search
returns null with `ENOENT` (with any fuel). -/
theorem allocKeySearchF_all_none (buf : List ℕ) (b i : ℕ) :
    ∀ fuel fk,
      (∀ j, fk + j * i < b →
        Impl_AllocScan buf (fk + j * i) (ConfigStore_BeginKvp buf) (ConfigStore_EndKvp buf) =
          true) →
      Impl_AllocKeySearchF buf b i fuel fk = none := by
  intro fuel
  induction fuel with
  | zero => intro fk _; rfl
  | succ fuel ih =>
    intro fk hall
    unfold Impl_AllocKeySearchF
    split_ifs with hfb hscan hov
    · rfl
    · apply ih
      intro j hj
      have hsm : (j + 1) * i = j * i + i := Nat.succ_mul j i
      have h5 := hall (j + 1) (by omega)
      rw [show fk + (j + 1) * i = fk + i + j * i by omega] at h5
      exact h5
    · exfalso
      have h0 := hall 0 (by omega)
      rw [show fk + 0 * i = fk by omega] at h0
      exact hscan h0
    · rfl

/-- C7: for every store and `key_increment ≥ 1` (with the 16-bit arguments
the C types impose), when `ConfigStore_AllocUniqueKvp(p, a, b, s, i)`
returns a record, its key `k` satisfies `a ≤ k < b` and
`(k - a) % i = 0`, no walked record of the prior store bears `k`, and the
new record (with `size` field `s + 4`) is appended at `end()`; the call
yields null-with-`ENOENT` exactly when every candidate `a, a+i, a+2i, …`
inside `[a, b)` is already present (covering both the candidate passing `b`
and 16-bit overflow of the additive step). -/
theorem C7_thm (allocOk : Bool) (s : ConfigStore) (a b vsize i : ℕ)
    (hi : 1 ≤ i) (hb : b ≤ 65535) :
    (∀ s2 pos, ConfigStore_AllocUniqueKvp allocOk s a b vsize i = .ok s2 pos →
      pos = s.data.length ∧
      ∃ k, a ≤ k ∧ k < b ∧ (k - a) % i = 0 ∧
        k ∉ walkKeys s.data (ConfigStore_BeginKvp s.data) (ConfigStore_EndKvp s.data) ∧
        kvpKey s2.data pos = k ∧
        s2.data = s.data ++ encKvpHeader k (vsize + 4) ++ List.replicate vsize 0)
  ∧ (ConfigStore_AllocUniqueKvp allocOk s a b vsize i = .noent ↔
      ∀ j, a + j * i < b →
        (a + j * i) ∈ walkKeys s.data (ConfigStore_BeginKvp s.data)
          (ConfigStore_EndKvp s.data)) := by
  constructor
  · intro s2 pos hok
    unfold ConfigStore_AllocUniqueKvp at hok
    cases hsearch : Impl_AllocKeySearchF s.data b i 65537 a with
    | none => rw [hsearch] at hok; exact absurd hok (by simp)
    | some k0 =>
      rw [hsearch] at hok
      dsimp only at hok
      cases hins : ConfigStore_InsertKvp allocOk s (ConfigStore_EndKvp s.data) k0 vsize with
      | none => rw [hins] at hok; exact absurd hok (by simp)
      | some v =>
        obtain ⟨s3, pos3⟩ := v
        rw [hins] at hok
        injection hok with hs3 hpos3
        obtain ⟨hfk, hfb, hscan, j, hj⟩ := allocKeySearchF_some s.data b i 65537 a k0 hsearch
        obtain ⟨hp, hle, hdata⟩ := insertKvp_some _ _ _ _ _ _ _ hins
        unfold ConfigStore_EndKvp at hp hdata
        rw [List.take_length, List.drop_length, List.append_nil] at hdata
        have hposlen : pos = s.data.length := by rw [← hpos3, hp]
        refine ⟨hposlen, k0, hfk, hfb, ?_, ?_, ?_, ?_⟩
        · have hsub : k0 - a = j * i := by omega
          rw [hsub]
          exact Nat.mul_mod_left j i
        · intro hmem
          have hcontra := (allocScan_eq_mem s.data k0 (ConfigStore_BeginKvp s.data)
            (ConfigStore_EndKvp s.data)).mpr hmem
          rw [hscan] at hcontra
          exact Bool.false_ne_true hcontra
        · have henc := (encHeader_fields s.data s.data.length k0 (vsize + 4) le_rfl
            (List.replicate vsize 0)).1
          rw [List.take_length] at henc
          rw [← hs3, hposlen, hdata, henc]
          omega
        · rw [← hs3, hdata]
  · cases hsearch : Impl_AllocKeySearchF s.data b i 65537 a with
    | none =>
      constructor
      · intro _ j hj
        have hscan := allocKeySearchF_none_all s.data b i hi hb 65537 a (by omega) hsearch j hj
        exact (allocScan_eq_mem s.data (a + j * i) (ConfigStore_BeginKvp s.data)
          (ConfigStore_EndKvp s.data)).mp hscan
      · intro _
        unfold ConfigStore_AllocUniqueKvp
        rw [hsearch]
    | some k0 =>
      constructor
      · intro hc
        exfalso
        unfold ConfigStore_AllocUniqueKvp at hc
        rw [hsearch] at hc
        dsimp only at hc
        cases hins : ConfigStore_InsertKvp allocOk s (ConfigStore_EndKvp s.data) k0 vsize with
        | none => rw [hins] at hc; exact absurd hc (by simp)
        | some v =>
          obtain ⟨s3, p3⟩ := v
          rw [hins] at hc
          exact absurd hc (by simp)
      · intro hall
        exfalso
        have hnone := allocKeySearchF_all_none s.data b i 65537 a (fun j hj =>
          (allocScan_eq_mem s.data (a + j * i) (ConfigStore_BeginKvp s.data)
            (ConfigStore_EndKvp s.data)).mpr (hall j hj))
        rw [hsearch] at hnone
        exact Option.noConfusion hnone

/-- C7 witness: the exhaustion characterisation instantiated on a store
holding only the file header, with range `[100, 110)` and increment 2. -/
theorem C7_witness :
    ConfigStore_AllocUniqueKvp true
        ⟨[251, 255, 14, 0, 198, 0, 14, 0, 0, 0, 255, 255, 255, 255], 14, 100⟩ 100 110 0 2 =
        .noent ↔
      ∀ j, 100 + j * 2 < 110 →
        (100 + j * 2) ∈ walkKeys [251, 255, 14, 0, 198, 0, 14, 0, 0, 0, 255, 255, 255, 255]
          (ConfigStore_BeginKvp [251, 255, 14, 0, 198, 0, 14, 0, 0, 0, 255, 255, 255, 255])
          (ConfigStore_EndKvp [251, 255, 14, 0, 198, 0, 14, 0, 0, 0, 255, 255, 255, 255]) :=
  (C7_thm true ⟨[251, 255, 14, 0, 198, 0, 14, 0, 0, 0, 255, 255, 255, 255], 14, 100⟩
    100 110 0 2 (by decide) (by decide)).2

